import Mathlib

/-!
Verification of the sandboxed file-system layer in `FS.common.js`
(siphoncode/react-native-fs).  JavaScript strings are modelled as `List Char`;
the path normalizer, root policy, root guarantor and the public operation
facade are translated function-by-function from the source, with native
primitives (the `RNFSManager` module) and platform event emitters supplied by
an oracle.  Effectful operations are modelled as pure functions returning the
ordered list of calls made to the collaborators together with the settled
outcome of the returned promise.
-/

namespace RNFS

/-- JavaScript strings, modelled as lists of characters. -/
abbrev Str := List Char

/-- Splits a string on a single-character separator, exactly like
`String.prototype.split` with a one-character separator:
`"a//b".split('/') == ["a","","b"]`, `"".split('/') == [""]`. -/
def splitChar (c : Char) : Str → List Str
  | [] => [[]]
  | a :: rest =>
      if a = c then [] :: splitChar c rest
      else
        match splitChar c rest with
        | [] => [[a]]
        | p :: ps => (a :: p) :: ps

/-- Models `Array.prototype.join(sep)`: interleaves `sep` between the parts. -/
def joinSep (sep : Str) : List Str → Str
  | [] => []
  | [p] => p
  | p :: ps => p ++ sep ++ joinSep sep ps

/-- The scheme separator `"://"` used by `normalizePath`. -/
def schemeSep : Str := [':', '/', '/']

/-- Splits a string on the three-character separator `"://"`, exactly like
`String.prototype.split('://')`: leftmost occurrences are found one after the
other, each consuming the matched `"://"`. -/
def splitScheme : Str → List Str
  | ':' :: '/' :: '/' :: rest => [] :: splitScheme rest
  | a :: rest =>
      (match splitScheme rest with
       | [] => [[a]]
       | p :: ps => (a :: p) :: ps)
  | [] => [[]]

/-- The loop body of `normalizePath`'s segment fold (source lines 89-98):
`.` segments are dropped, `..` segments pop the most recently kept segment
(`Array.pop` on an empty array is a no-op), all other segments are kept in
order. -/
def segStep (acc : List Str) (p : Str) : List Str :=
  if p = ['.'] then acc
  else if p = ['.', '.'] then acc.dropLast
  else acc ++ [p]

/-- The segment fold of `normalizePath` (source lines 87-98). -/
def foldSegs (parts : List Str) : List Str :=
  parts.foldl segStep []

/-- Models `normalizePath` (source lines 71-108).  The source checks
`path.indexOf('://') > -1` and then takes `split[0]` and `split[1]` of
`path.split('://')`; the index test succeeds exactly when the split has at
least two parts, and a falsy (empty) scheme reassembles without the scheme
prefix, which is also what happens when no scheme is present. -/
def normalizePath (path : Str) : Str :=
  match splitScheme path with
  | s0 :: s1 :: _ =>
      let normParts := foldSegs (splitChar '/' s1)
      if s0 = [] then joinSep ['/'] normParts
      else s0 ++ schemeSep ++ joinSep ['/'] normParts
  | _ => joinSep ['/'] (foldSegs (splitChar '/' path))


/-- Process-wide configuration: the `__SIPHON.appID` global, the native base
directory paths exposed by `RNFSManager`, and `Platform.OS`.  The source
throws from `processDirPath` when the appID is unset or empty; that
configuration error is outside every claim, so the configuration carries the
invariant that the appID is non-empty and the throw is unreachable. -/
structure Config where
  appID : Str
  cachesBase : Str
  docsBase : Str
  libBase : Str
  ios : Bool
  appIDSet : appID ≠ []

/-- Models `processDirPath` (source lines 49-69): appends
`siphon-data-<appID>` to the path, inserting a `/` separator unless the path
already ends in `/` (`path.slice(-1)` of the empty string is `""`, so the
separator is inserted then too). -/
def processDirPath (cfg : Config) (path : Str) : Str :=
  let ext := "siphon-data-".data ++ cfg.appID
  if path.getLast? = some '/' then path ++ ext
  else path ++ ('/' :: ext)

/-- The `validDirs` array built inside `rootDir` (source lines 115-123):
sandboxed caches and documents roots, then — on iOS only — the sandboxed
library root. -/
def validDirs (cfg : Config) : List Str :=
  [processDirPath cfg cfg.cachesBase, processDirPath cfg cfg.docsBase]
    ++ (if cfg.ios then [processDirPath cfg cfg.libBase] else [])

/-- The scan loop of `rootDir` (source lines 125-131): returns
`path.substring(0, d.length)` for the first `d` with
`path.substring(0, d.length) == d`. -/
def firstRootMatch (path : Str) : List Str → Option Str
  | [] => none
  | d :: rest =>
      if path.take d.length = d then some (path.take d.length)
      else firstRootMatch path rest

/-- Models `rootDir` (source lines 110-134): normalizes the path and returns the
first sandboxed root that is a literal string prefix of it, or `null`. -/
def rootDir (cfg : Config) (path : Str) : Option Str :=
  firstRootMatch (normalizePath path) (validDirs cfg)

/-- The fields of a JavaScript error object that `convertError` reads:
`message`, `code` and `description`. -/
structure ErrData where
  message : Str
  code : Option Str := none
  description : Option Str := none
deriving DecidableEq

/-- JavaScript `Error` values as they flow through this module: the error
fields plus the bluebird `OperationalError` wrapping (`isOperational` and a
`cause`; `convertError` only ever unwraps one level, so one level of cause is
kept). -/
structure JsError where
  message : Str
  code : Option Str := none
  description : Option Str := none
  isOperational : Bool := false
  cause : Option ErrData := none
deriving DecidableEq

/-- A plain `new Error(msg)`: no code, no description, not operational. -/
def plainError (msg : Str) : JsError := { message := msg }

/-- Models `convertError` (source lines 29-37): unwraps one level of
operational-error `cause` wrapping, then rebuilds
`new Error(err.description || err.message)` carrying over `err.code`. -/
def convertError (e : JsError) : JsError :=
  match e.isOperational, e.cause with
  | true, some c => { message := c.description.getD c.message, code := c.code }
  | _, _ => { message := e.description.getD e.message, code := e.code }

/-- The `InvalidRoot` error message built at source lines 145-147. -/
def invalidRootMsg : Str :=
  ("Warning: Invalid directory for Siphon app. " ++
   "Please use one of DocumentDirectoryPath, " ++
   "CachesDirectoryPath or LibraryDirectoryPath (iOS only).").data

/-- Tests whether `sub` occurs as a contiguous substring of `s`. -/
def containsSub (s sub : Str) : Bool :=
  s.tails.any (fun t => sub.isPrefixOf t)


/-- The two platform event-delivery mechanisms: `NativeAppEventEmitter`
(iOS style) and `DeviceEventEmitter` (Android style). -/
inductive Mech where
  | ios
  | android
deriving DecidableEq

/-- Which callback value is handed to `addListener`: the caller's begin
callback, the caller's progress callback, or the default begin callback
installed at source lines 295-297 (whose body only logs). -/
inductive CB where
  | userBegin
  | userProgress
  | defaultBeginLog
deriving DecidableEq

/-- A raw directory entry as returned by the native `readDir`. -/
structure RawFile where
  name : Str
  path : Str
  size : Int
  type : Str
deriving DecidableEq

/-- The reshaped entry returned by `RNFS.readDir` (the source stores
`isFile`/`isDirectory` as closures over `file.type`; here the compared
values are carried as plain booleans). -/
structure DirEntry where
  name : Str
  path : Str
  size : Int
  isFile : Bool
  isDirectory : Bool
deriving DecidableEq

/-- A raw stat result as returned by the native `stat`. -/
structure RawStat where
  ctime : Int
  mtime : Int
  size : Int
  mode : Int
  type : Str
deriving DecidableEq

/-- The reshaped result of `RNFS.stat`; `new Date(x*1000)` is carried as the
millisecond timestamp `x*1000`. -/
structure StatResult where
  ctimeMs : Int
  mtimeMs : Int
  size : Int
  mode : Int
  isFile : Bool
  isDirectory : Bool
deriving DecidableEq

/-- One observable call to a collaborator: a `_ensureValidRoot` entry, a
native file-system primitive, an event-emitter subscription operation, or a
console log. -/
inductive Call where
  | ensure (path : Str)
  | mkdirNative (root : Option Str) (excludeFromBackup : Bool)
  | readDirNative (path : Str)
  | statNative (path : Str)
  | existsNative (path : Str)
  | readFileNative (path : Str)
  | writeFileNative (path : Str) (b64 : Str) (options : Option Str)
  | moveFileNative (src : Str) (dst : Str)
  | unlinkNative (path : Str)
  | downloadNative (fromUrl : Str) (toFile : Str) (jobId : Nat)
  | addListener (mech : Mech) (channel : Str) (cb : CB)
  | removeListener (mech : Mech) (channel : Str)
  | log (msg : Str)
  | stopDownloadNative (jobId : Nat)
deriving DecidableEq

/-- The external collaborators: responses of the promisified native
primitives, availability of the two event emitters' `addListener` entry
points, the native file-type constants, and the pure transcoding library
functions. -/
structure Oracle where
  mkdirRes : Option Str → Bool → Except JsError Unit
  readDirRes : Str → Except JsError (List RawFile)
  statRes : Str → Except JsError RawStat
  existsRes : Str → Except JsError Bool
  readFileRes : Str → Except JsError Str
  writeFileRes : Str → Str → Option Str → Except JsError Unit
  moveFileRes : Str → Str → Except JsError Unit
  unlinkRes : Str → Except JsError Unit
  downloadRes : Str → Str → Nat → Except JsError Str
  iosAvailable : Bool
  androidAvailable : Bool
  nsFileTypeRegular : Str
  nsFileTypeDirectory : Str
  b64encode : Str → Str
  b64decode : Str → Str
  utf8encode : Str → Str
  utf8decode : Str → Str

deriving instance DecidableEq for Except

/-- Outcome of `_ensureValidRoot`: the calls issued before its promise
settles, the settled result (first `resolve`/`reject` wins), and the calls
the executor still issues synchronously after settlement. -/
structure EnsureResult where
  preSettle : List Call
  result : Except JsError Unit
  postSettle : List Call
deriving DecidableEq

/-- All calls issued by one `_ensureValidRoot` invocation, in order. -/
def EnsureResult.trace (e : EnsureResult) : List Call :=
  e.preSettle ++ e.postSettle

/-- Models `_ensureValidRoot` (source lines 138-159).  When no root matches, the
promise is rejected with the `InvalidRoot` error, but — there being no
`return` after the `reject` — the executor still computes
`excludeFromBackup` (`null == <string>` is false, so it stays `false`) and
still calls `_mkdir(null, false)`; that call lands after the settlement and
its `resolve`/`reject` are no-ops.  When a root matches, `_mkdir(root,
excludeFromBackup)` decides the settlement. -/
def ensureValidRoot (cfg : Config) (o : Oracle) (path : Str) : EnsureResult :=
  match rootDir cfg path with
  | none =>
      { preSettle := [.ensure path]
        result := .error (plainError invalidRootMsg)
        postSettle := [.mkdirNative none false] }
  | some root =>
      let excl : Bool := decide (root = processDirPath cfg cfg.cachesBase)
      { preSettle := [.ensure path, .mkdirNative (some root) excl]
        result := (o.mkdirRes (some root) excl).map (fun _ => ())
        postSettle := [] }

/-- Models `RNFS.readDir` (source lines 161-177): guard, then `_readDir`, reshape,
inner `convertError` catch, and an outer `convertError` catch (so a native
`_readDir` failure is converted twice, a guard failure once). -/
def readDir (cfg : Config) (o : Oracle) (dirpath : Str) :
    List Call × Except JsError (List DirEntry) :=
  let e := ensureValidRoot cfg o dirpath
  match e.result with
  | .error err => (e.trace, .error (convertError err))
  | .ok _ =>
      match o.readDirRes dirpath with
      | .ok files =>
          (e.trace ++ [.readDirNative dirpath],
           .ok (files.map (fun f =>
             { name := f.name, path := f.path, size := f.size
               isFile := decide (f.type = o.nsFileTypeRegular)
               isDirectory := decide (f.type = o.nsFileTypeDirectory) })))
      | .error err =>
          (e.trace ++ [.readDirNative dirpath],
           .error (convertError (convertError err)))

/-- Models `RNFS.readdir` (source lines 180-188): runs its own guard, then
delegates to `RNFS.readDir` (which runs the guard again) and keeps only the
names.  There is no catch of its own, so guard failures propagate raw. -/
def readdir (cfg : Config) (o : Oracle) (dirpath : Str) :
    List Call × Except JsError (List Str) :=
  let e := ensureValidRoot cfg o dirpath
  match e.result with
  | .error err => (e.trace, .error err)
  | .ok _ =>
      let (t, r) := readDir cfg o dirpath
      (e.trace ++ t, r.map (fun files => files.map (fun f => f.name)))

/-- Models `RNFS.stat` (source lines 190-206): guard (failures propagate raw),
then `_stat`, reshape, `convertError` on native failure. -/
def stat (cfg : Config) (o : Oracle) (filepath : Str) :
    List Call × Except JsError StatResult :=
  let e := ensureValidRoot cfg o filepath
  match e.result with
  | .error err => (e.trace, .error err)
  | .ok _ =>
      match o.statRes filepath with
      | .ok r =>
          (e.trace ++ [.statNative filepath],
           .ok { ctimeMs := r.ctime * 1000, mtimeMs := r.mtime * 1000
                 size := r.size, mode := r.mode
                 isFile := decide (r.type = o.nsFileTypeRegular)
                 isDirectory := decide (r.type = o.nsFileTypeDirectory) })
      | .error err => (e.trace ++ [.statNative filepath], .error (convertError err))

/-- Models `RNFS.exists` (source lines 208-214): guard (failures propagate raw),
then `_exists`, `convertError` on native failure. -/
def existsOp (cfg : Config) (o : Oracle) (filepath : Str) :
    List Call × Except JsError Bool :=
  let e := ensureValidRoot cfg o filepath
  match e.result with
  | .error err => (e.trace, .error err)
  | .ok _ =>
      match o.existsRes filepath with
      | .ok b => (e.trace ++ [.existsNative filepath], .ok b)
      | .error err => (e.trace ++ [.existsNative filepath], .error (convertError err))

/-- The recognized encoding names. -/
def utf8E : Str := "utf8".data
/-- The `ascii` encoding name. -/
def asciiE : Str := "ascii".data
/-- The `base64` encoding name. -/
def base64E : Str := "base64".data

/-- Models `if (!encoding) encoding = 'utf8'`: an absent — or falsy, i.e. empty —
encoding argument defaults to `utf8`. -/
def effEncoding (encoding : Option Str) : Str :=
  match encoding with
  | none => utf8E
  | some e => if e = [] then utf8E else e

/-- The message of `new Error('Invalid encoding type "' + encoding + '"')`. -/
def invalidEncodingMsg (enc : Str) : Str :=
  "Invalid encoding type \"".data ++ enc ++ "\"".data

/-- Models `RNFS.readFile` (source lines 216-238): guard (failures propagate raw),
then `_readFile`; only once the transport bytes have arrived is the encoding
inspected, an unrecognized one throwing inside the `.then`, caught and
converted by the inner catch. -/
def readFile (cfg : Config) (o : Oracle) (filepath : Str)
    (encoding : Option Str) : List Call × Except JsError Str :=
  let enc := effEncoding encoding
  let e := ensureValidRoot cfg o filepath
  match e.result with
  | .error err => (e.trace, .error err)
  | .ok _ =>
      match o.readFileRes filepath with
      | .error err => (e.trace ++ [.readFileNative filepath], .error (convertError err))
      | .ok b64 =>
          (e.trace ++ [.readFileNative filepath],
           if enc = utf8E then .ok (o.utf8decode (o.b64decode b64))
           else if enc = asciiE then .ok (o.b64decode b64)
           else if enc = base64E then .ok b64
           else .error (convertError (plainError (invalidEncodingMsg enc))))

/-- Models `RNFS.writeFile` (source lines 240-260): the encoding is inspected
synchronously before anything else; an unrecognized one throws synchronously
(no calls at all are made), otherwise the content is transcoded, then guard
(failures propagate raw), then `_writeFile` with `convertError` on native
failure. -/
def writeFile (cfg : Config) (o : Oracle) (filepath contents : Str)
    (encoding : Option Str) (options : Option Str) :
    List Call × Except JsError Unit :=
  let enc := effEncoding encoding
  if enc = utf8E ∨ enc = asciiE ∨ enc = base64E then
    let b64 :=
      if enc = utf8E then o.b64encode (o.utf8encode contents)
      else if enc = asciiE then o.b64encode contents
      else contents
    let e := ensureValidRoot cfg o filepath
    match e.result with
    | .error err => (e.trace, .error err)
    | .ok _ =>
        match o.writeFileRes filepath b64 options with
        | .ok _ => (e.trace ++ [.writeFileNative filepath b64 options], .ok ())
        | .error err =>
            (e.trace ++ [.writeFileNative filepath b64 options], .error (convertError err))
  else
    ([], .error (plainError (invalidEncodingMsg enc)))

/-- Models `RNFS.moveFile` (source lines 262-268): guard on the source path
(failures propagate raw), then `_moveFile`, `convertError` on native
failure. -/
def moveFile (cfg : Config) (o : Oracle) (filepath destPath : Str) :
    List Call × Except JsError Unit :=
  let e := ensureValidRoot cfg o filepath
  match e.result with
  | .error err => (e.trace, .error err)
  | .ok _ =>
      match o.moveFileRes filepath destPath with
      | .ok _ => (e.trace ++ [.moveFileNative filepath destPath], .ok ())
      | .error err =>
          (e.trace ++ [.moveFileNative filepath destPath], .error (convertError err))

/-- Models `RNFS.unlink` (source lines 274-280): guard (failures propagate raw),
then `_unlink`, `convertError` on native failure. -/
def unlink (cfg : Config) (o : Oracle) (filepath : Str) :
    List Call × Except JsError Unit :=
  let e := ensureValidRoot cfg o filepath
  match e.result with
  | .error err => (e.trace, .error err)
  | .ok _ =>
      match o.unlinkRes filepath with
      | .ok _ => (e.trace ++ [.unlinkNative filepath], .ok ())
      | .error err => (e.trace ++ [.unlinkNative filepath], .error (convertError err))

/-- Models `RNFS.mkdir` (source lines 282-289): guard (failures propagate raw),
then `_mkdir(filepath, !!excludeFromBackup)` (`!!undefined` is `false`),
`convertError` on native failure. -/
def mkdir (cfg : Config) (o : Oracle) (filepath : Str)
    (excludeFromBackup : Option Bool) : List Call × Except JsError Unit :=
  let e := ensureValidRoot cfg o filepath
  match e.result with
  | .error err => (e.trace, .error err)
  | .ok _ =>
      let excl := excludeFromBackup.getD false
      match o.mkdirRes (some filepath) excl with
      | .ok _ => (e.trace ++ [.mkdirNative (some filepath) excl], .ok ())
      | .error err =>
          (e.trace ++ [.mkdirNative (some filepath) excl], .error (convertError err))

/-- Models `getJobId` (source lines 42-47): pre-increments the module-level counter
and returns it.  The state is threaded explicitly: given the current counter
value, returns the issued id and the new counter value. -/
def getJobId (jobId : Nat) : Nat × Nat := (jobId + 1, jobId + 1)

/-- The `'DownloadBegin-' + jobId` event channel name. -/
def dlBeginChannel (jid : Nat) : Str := "DownloadBegin-".data ++ (toString jid).data

/-- The `'DownloadProgress-' + jobId` event channel name. -/
def dlProgressChannel (jid : Nat) : Str := "DownloadProgress-".data ++ (toString jid).data

/-- A subscription handle as stored in the `subscriptionIos` /
`subscriptionAndroid` variables: identified by the mechanism and channel it
was registered on. -/
structure Handle where
  mech : Mech
  channel : Str
deriving DecidableEq

/-- The body of the default begin callback installed at source lines
295-297: a single `console.log('Download begun:', info)` (console.log joins
its arguments with a space) and nothing else. -/
def defaultBeginRun (info : Str) : List Call :=
  [.log ("Download begun: ".data ++ info)]

/-- One `addListener` registration attempt: made only when the mechanism's
`addListener` entry point exists. -/
def dlAdds (avail : Bool) (m : Mech) (ch : Str) (cb : CB) : List Call :=
  if avail then [.addListener m ch cb] else []

/-- The subscription calls made synchronously by `downloadFile` before the
guard runs: the begin callback (user-supplied or the default) is registered
on every available mechanism, then — when a progress callback was
supplied — the progress callback likewise. -/
def dlSetup (o : Oracle) (jid : Nat) (beginCb : CB) (hasProgress : Bool) : List Call :=
  (dlAdds o.iosAvailable .ios (dlBeginChannel jid) beginCb
      ++ dlAdds o.androidAvailable .android (dlBeginChannel jid) beginCb)
    ++ (if hasProgress then
          dlAdds o.iosAvailable .ios (dlProgressChannel jid) .userProgress
            ++ dlAdds o.androidAvailable .android (dlProgressChannel jid) .userProgress
        else [])

/-- The removal call issued on successful settlement for the handle held in
one of the two subscription-slot variables: the progress handle when a
progress callback was supplied, else the begin handle; nothing when the
mechanism was unavailable (slot empty). -/
def slotRemove (avail : Bool) (m : Mech) (hasProgress : Bool) (jid : Nat) : List Call :=
  if avail then
    [Call.removeListener m
      (if hasProgress then dlProgressChannel jid else dlBeginChannel jid)]
  else []

/-- Models `RNFS.downloadFile` (source lines 291-324).  A fresh job id is taken;
the begin callback is defaulted to the logging one when absent, and — the
subsequent `if (begin)` being always true — subscribed on every available
mechanism; progress subscriptions, when requested, are stored in the *same*
two variables, overwriting any begin handles held there.  Then the guard
runs on the destination file (failures propagate raw, removing nothing),
then `_downloadFile`; on success the handles currently held in the two
variables are removed (iOS first), on native failure the error is converted
and nothing is removed. -/
def downloadFile (cfg : Config) (o : Oracle) (jobCounter : Nat)
    (fromUrl toFile : Str) (hasBegin hasProgress : Bool) :
    Nat × List Call × Except JsError Str :=
  let (jid, counter2) := getJobId jobCounter
  let beginCb := if hasBegin then CB.userBegin else CB.defaultBeginLog
  let subIos0 : Option Handle :=
    if o.iosAvailable then some ⟨.ios, dlBeginChannel jid⟩ else none
  let subAnd0 : Option Handle :=
    if o.androidAvailable then some ⟨.android, dlBeginChannel jid⟩ else none
  let subIos :=
    if hasProgress && o.iosAvailable then some (Handle.mk .ios (dlProgressChannel jid))
    else subIos0
  let subAnd :=
    if hasProgress && o.androidAvailable then some (Handle.mk .android (dlProgressChannel jid))
    else subAnd0
  let setup := dlSetup o jid beginCb hasProgress
  let e := ensureValidRoot cfg o toFile
  match e.result with
  | .error err => (counter2, setup ++ e.trace, .error err)
  | .ok _ =>
      match o.downloadRes fromUrl toFile jid with
      | .error err =>
          (counter2, setup ++ e.trace ++ [.downloadNative fromUrl toFile jid],
           .error (convertError err))
      | .ok res =>
          let removes :=
            (match subIos with
             | some h => [Call.removeListener h.mech h.channel]
             | none => [])
            ++ (match subAnd with
                | some h => [Call.removeListener h.mech h.channel]
                | none => [])
          (counter2,
           setup ++ e.trace ++ [.downloadNative fromUrl toFile jid] ++ removes,
           .ok res)

/-- Models `RNFS.stopDownload` (source lines 326-328): forwards the job id to the
native cancellation entry point, no guard, no path. -/
def stopDownload (jid : Nat) : List Call := [.stopDownloadNative jid]

/-- Is this call a `_ensureValidRoot` entry? -/
def isEnsure : Call → Bool
  | .ensure _ => true
  | _ => false

/-- Is this call an invocation of an underlying file-system primitive? -/
def isFsPrim : Call → Bool
  | .mkdirNative _ _ => true
  | .readDirNative _ => true
  | .statNative _ => true
  | .existsNative _ => true
  | .readFileNative _ => true
  | .writeFileNative _ _ _ => true
  | .moveFileNative _ _ => true
  | .unlinkNative _ => true
  | .downloadNative _ _ _ => true
  | _ => false

/-- Is this call a directory-creation call on the underlying primitive? -/
def isMkdirCall : Call → Bool
  | .mkdirNative _ _ => true
  | _ => false

/-- Is this call an event-listener subscription? -/
def isAddListener : Call → Bool
  | .addListener _ _ _ => true
  | _ => false

/-- Is this call an event-listener removal (`subscription.remove()`)? -/
def isRemoveListener : Call → Bool
  | .removeListener _ _ => true
  | _ => false

/-- The string has no occurrence of `"://"`: splitting on the scheme
separator returns it whole. -/
def schemeFree (s : Str) : Prop := splitScheme s = [s]

/-- The segment lists produced by normalization: no `.` or `..` segments and
no slash inside a segment. -/
def goodParts (L : List Str) : Prop :=
  ∀ x ∈ L, x ≠ ['.'] ∧ x ≠ ['.', '.'] ∧ '/' ∉ x

/-- The normalized form contains the scheme separator `"://"` at most once
and, when it contains one, the text before it is non-empty. -/
def schemeShapeOK (n : Str) : Bool :=
  match splitScheme n with
  | [_] => true
  | [t0, _] => decide (t0 ≠ [])
  | _ => false

/-- The ids handed out by `n` successive `getJobId` calls starting from
counter state `s`, in issuance order. -/
def runJobIds : Nat → Nat → List Nat
  | 0, _ => []
  | n + 1, s => (getJobId s).1 :: runJobIds n (getJobId s).2

/-- The trace contains a guarantor entry for `p` preceded by no underlying
file-system primitive call. -/
def guardFirst (p : Str) (t : List Call) : Prop :=
  ∃ pre post, t = pre ++ Call.ensure p :: post ∧ ∀ c ∈ pre, isFsPrim c = false

/-! ### Concrete fixtures used by witnesses and counterexamples -/

/-- A concrete configuration: appID `app`, base dirs `/C`, `/D`, `/L`,
running on iOS. -/
def cfgW : Config :=
  { appID := "app".data
    cachesBase := "/C".data
    docsBase := "/D".data
    libBase := "/L".data
    ios := true
    appIDSet := by decide }

/-- An oracle on which every native primitive succeeds; only the iOS event
emitter is available. -/
def okOracle : Oracle :=
  { mkdirRes := fun _ _ => .ok ()
    readDirRes := fun _ => .ok []
    statRes := fun _ => .ok { ctime := 0, mtime := 0, size := 0, mode := 0, type := [] }
    existsRes := fun _ => .ok true
    readFileRes := fun _ => .ok "QQ==".data
    writeFileRes := fun _ _ _ => .ok ()
    moveFileRes := fun _ _ => .ok ()
    unlinkRes := fun _ => .ok ()
    downloadRes := fun _ _ _ => .ok "ok".data
    iosAvailable := true
    androidAvailable := false
    nsFileTypeRegular := "NSFileTypeRegular".data
    nsFileTypeDirectory := "NSFileTypeDirectory".data
    b64encode := id
    b64decode := id
    utf8encode := id
    utf8decode := id }

/-- Like `okOracle`, but the native download fails. -/
def dlFailOracle : Oracle :=
  { okOracle with downloadRes := fun _ _ _ => .error (plainError ("netfail".data)) }

/-- A sandboxed path under the caches root of `cfgW`. -/
def goodPath : Str := "/C/siphon-data-app/f.txt".data

/-- A path outside every sandboxed root of `cfgW`. -/
def badPath : Str := "/nope".data

/-! ### Lemmas about the string splitters and the segment fold -/

theorem joinSep_cons_of_ne_nil (sep : Str) (p : Str) {ps : List Str} (h : ps ≠ []) :
    joinSep sep (p :: ps) = p ++ sep ++ joinSep sep ps := by
  cases ps with
  | nil => exact absurd rfl h
  | cons q qs => rfl

theorem joinSep_cons_cons (sep : Str) (a : Char) (p : Str) (ps : List Str) :
    joinSep sep ((a :: p) :: ps) = a :: joinSep sep (p :: ps) := by
  cases ps with
  | nil => rfl
  | cons q qs => simp [joinSep, List.cons_append]

theorem splitChar_nil (c : Char) : splitChar c [] = [[]] := rfl

theorem splitChar_cons_self (c : Char) (rest : Str) :
    splitChar c (c :: rest) = [] :: splitChar c rest := by
  simp [splitChar]

theorem splitChar_ne_nil (c : Char) (s : Str) : splitChar c s ≠ [] := by
  induction s with
  | nil => simp [splitChar]
  | cons a rest ih =>
      by_cases hac : a = c
      · subst hac; rw [splitChar_cons_self]; simp
      · simp only [splitChar, if_neg hac]
        rcases h : splitChar c rest with _ | ⟨p, ps⟩ <;> simp

theorem splitChar_cons_ne {a c : Char} (h : a ≠ c) {rest p : Str} {ps : List Str}
    (h2 : splitChar c rest = p :: ps) :
    splitChar c (a :: rest) = (a :: p) :: ps := by
  simp only [splitChar, if_neg h, h2]

theorem joinSep_splitChar (c : Char) (s : Str) :
    joinSep [c] (splitChar c s) = s := by
  induction s with
  | nil => rfl
  | cons a rest ih =>
      by_cases hac : a = c
      · subst hac
        rw [splitChar_cons_self]
        rcases h : splitChar a rest with _ | ⟨p, ps⟩
        · exact absurd h (splitChar_ne_nil a rest)
        · rw [h] at ih
          rw [joinSep_cons_of_ne_nil _ _ (by simp), ih]
          simp
      · rcases h : splitChar c rest with _ | ⟨p, ps⟩
        · exact absurd h (splitChar_ne_nil c rest)
        · rw [h] at ih
          rw [splitChar_cons_ne hac h, joinSep_cons_cons, ih]

theorem mem_splitChar_not_mem (c : Char) (s : Str) :
    ∀ part ∈ splitChar c s, c ∉ part := by
  induction s with
  | nil =>
      intro part hp
      rw [splitChar_nil] at hp
      simp only [List.mem_singleton] at hp
      simp [hp]
  | cons a rest ih =>
      intro part hp
      by_cases hac : a = c
      · subst hac
        rw [splitChar_cons_self] at hp
        rcases List.mem_cons.mp hp with hp | hp
        · simp [hp]
        · exact ih part hp
      · rcases h : splitChar c rest with _ | ⟨p, ps⟩
        · exact absurd h (splitChar_ne_nil c rest)
        · rw [splitChar_cons_ne hac h] at hp
          rcases List.mem_cons.mp hp with hp | hp
          · subst hp
            have hnp : c ∉ p := ih p (by rw [h]; exact List.mem_cons_self p ps)
            intro hc
            rcases List.mem_cons.mp hc with hc | hc
            · exact hac hc.symm
            · exact hnp hc
          · exact ih part (by rw [h]; exact List.mem_cons_of_mem p hp)

theorem splitChar_append_cons (c : Char) (x y : Str) :
    splitChar c (x ++ c :: y) = splitChar c x ++ splitChar c y := by
  induction x with
  | nil => rw [List.nil_append, splitChar_cons_self, splitChar_nil]; rfl
  | cons a x2 ih =>
      by_cases hac : a = c
      · subst hac
        rw [List.cons_append, splitChar_cons_self, splitChar_cons_self, ih]
        rfl
      · rcases h : splitChar c x2 with _ | ⟨p, ps⟩
        · exact absurd h (splitChar_ne_nil c x2)
        · have h3 : splitChar c (x2 ++ c :: y) = p :: (ps ++ splitChar c y) := by
            rw [ih, h]; rfl
          rw [List.cons_append, splitChar_cons_ne hac h3, splitChar_cons_ne hac h]
          rfl

theorem splitChar_of_not_mem {c : Char} {s : Str} (h : c ∉ s) :
    splitChar c s = [s] := by
  induction s with
  | nil => rfl
  | cons a rest ih =>
      have hac : a ≠ c := fun hc => h (by simp [hc])
      have hrest : c ∉ rest := fun hc => h (List.mem_cons_of_mem a hc)
      simp only [splitChar, if_neg hac, ih hrest]

theorem splitChar_joinSep {c : Char} {L : List Str}
    (hfree : ∀ p ∈ L, c ∉ p) (hne : L ≠ []) :
    splitChar c (joinSep [c] L) = L := by
  induction L with
  | nil => exact absurd rfl hne
  | cons l L2 ih =>
      cases L2 with
      | nil =>
          simp only [joinSep]
          exact splitChar_of_not_mem (hfree l (List.mem_cons_self l []))
      | cons m M =>
          rw [joinSep_cons_of_ne_nil _ _ (by simp)]
          have : l ++ [c] ++ joinSep [c] (m :: M) = l ++ c :: joinSep [c] (m :: M) := by
            simp
          rw [this, splitChar_append_cons,
            splitChar_of_not_mem (hfree l (List.mem_cons_self l (m :: M))),
            ih (fun p hp => hfree p (List.mem_cons_of_mem l hp)) (by simp)]
          rfl

theorem mem_segStep {acc : List Str} {p x : Str} (h : x ∈ segStep acc p) :
    x ∈ acc ∨ (x = p ∧ p ≠ ['.'] ∧ p ≠ ['.', '.']) := by
  unfold segStep at h
  by_cases h1 : p = ['.']
  · rw [if_pos h1] at h; exact Or.inl h
  · rw [if_neg h1] at h
    by_cases h2 : p = ['.', '.']
    · rw [if_pos h2] at h
      exact Or.inl (List.dropLast_sublist acc |>.subset h)
    · rw [if_neg h2] at h
      rcases List.mem_append.mp h with h | h
      · exact Or.inl h
      · simp only [List.mem_singleton] at h
        exact Or.inr ⟨h, h1, h2⟩

theorem mem_foldl_segStep_aux (parts : List Str) :
    ∀ acc x, x ∈ List.foldl segStep acc parts →
      x ∈ acc ∨ (x ∈ parts ∧ x ≠ ['.'] ∧ x ≠ ['.', '.']) := by
  induction parts with
  | nil => intro acc x h; exact Or.inl h
  | cons p rest ih =>
      intro acc x h
      rcases ih (segStep acc p) x h with h2 | h2
      · rcases mem_segStep h2 with h3 | h3
        · exact Or.inl h3
        · exact Or.inr ⟨by simp [h3.1], by rw [h3.1]; exact h3.2.1,
            by rw [h3.1]; exact h3.2.2⟩
      · exact Or.inr ⟨List.mem_cons_of_mem p h2.1, h2.2.1, h2.2.2⟩

theorem mem_foldSegs {parts : List Str} {x : Str} (h : x ∈ foldSegs parts) :
    x ∈ parts ∧ x ≠ ['.'] ∧ x ≠ ['.', '.'] := by
  rcases mem_foldl_segStep_aux parts [] x h with h2 | h2
  · simp at h2
  · exact h2

theorem foldl_segStep_of_clean (parts : List Str)
    (h : ∀ x ∈ parts, x ≠ ['.'] ∧ x ≠ ['.', '.']) :
    ∀ acc, List.foldl segStep acc parts = acc ++ parts := by
  induction parts with
  | nil => intro acc; simp
  | cons p rest ih =>
      intro acc
      have hp := h p (List.mem_cons_self p rest)
      have hstep : segStep acc p = acc ++ [p] := by
        unfold segStep; rw [if_neg hp.1, if_neg hp.2]
      simp only [List.foldl_cons, hstep,
        ih (fun x hx => h x (List.mem_cons_of_mem p hx)) (acc ++ [p])]
      simp

theorem foldSegs_of_clean {parts : List Str}
    (h : ∀ x ∈ parts, x ≠ ['.'] ∧ x ≠ ['.', '.']) :
    foldSegs parts = parts := by
  unfold foldSegs
  rw [foldl_segStep_of_clean parts h []]
  simp

theorem splitScheme_nil : splitScheme [] = [[]] := rfl

theorem splitScheme_sep_cons (rest : Str) :
    splitScheme (':' :: '/' :: '/' :: rest) = [] :: splitScheme rest := rfl

theorem splitScheme_ne_nil (s : Str) : splitScheme s ≠ [] := by
  induction s using splitScheme.induct with
  | case1 rest ih => simp [splitScheme]
  | case2 a rest hne hnil ih => exact absurd hnil ih
  | case3 a rest hne p ps hps ih => simp [splitScheme, hps]
  | case4 => simp [splitScheme]


theorem joinSep_splitScheme (s : Str) :
    joinSep schemeSep (splitScheme s) = s := by
  induction s using splitScheme.induct with
  | case1 rest ih =>
      rw [splitScheme_sep_cons]
      rcases h : splitScheme rest with _ | ⟨p, ps⟩
      · exact absurd h (splitScheme_ne_nil rest)
      · rw [h] at ih
        rw [joinSep_cons_of_ne_nil _ _ (by simp), ih]
        simp [schemeSep]
  | case2 a rest hne hnil ih => exact absurd hnil (splitScheme_ne_nil rest)
  | case3 a rest hne p ps hps ih =>
      rw [hps] at ih
      have heq : splitScheme (a :: rest) = (a :: p) :: ps := by
        simp [splitScheme, hps]
      rw [heq, joinSep_cons_cons, ih]
  | case4 => rfl

theorem splitScheme_head_is_pre (s : Str) :
    ∀ p ps, splitScheme s = p :: ps → p <+: s := by
  induction s using splitScheme.induct with
  | case1 rest ih =>
      intro p ps h
      rw [splitScheme_sep_cons] at h
      injection h with h1 h2
      rw [← h1]
      exact List.nil_prefix
  | case2 a rest hne hnil ih => exact absurd hnil (splitScheme_ne_nil rest)
  | case3 a rest hne p0 ps0 hps ih =>
      intro p ps h
      have heq : splitScheme (a :: rest) = (a :: p0) :: ps0 := by
        simp [splitScheme, hps]
      rw [heq] at h
      injection h with h1 h2
      rw [← h1]
      exact (List.prefix_cons_inj a).mpr (ih p0 ps0 hps)
  | case4 =>
      intro p ps h
      rw [splitScheme_nil] at h
      injection h with h1 h2
      subst h1
      exact List.nil_prefix

theorem schemeFree_tail {a : Char} {s : Str}
    (h : splitScheme (a :: s) = [a :: s]) : schemeFree s := by
  rcases hs : splitScheme s with _ | ⟨p, ps⟩
  · exact absurd hs (splitScheme_ne_nil s)
  · by_cases hsep : ∃ r2, a = ':' ∧ s = '/' :: '/' :: r2
    · rcases hsep with ⟨r2, ha, hr⟩
      subst ha; subst hr
      rw [splitScheme_sep_cons] at h
      injection h with h1 h2
      exact absurd h1 (by simp)
    · have hne : ∀ r2, a = ':' → s = '/' :: '/' :: r2 → False :=
        fun r2 ha hr => hsep ⟨r2, ha, hr⟩
      have heq : splitScheme (a :: s) = (a :: p) :: ps := by
        simp [splitScheme, hs]
      rw [heq] at h
      injection h with h1 h2
      injection h1 with _ hp
      show splitScheme s = [s]
      rw [hs, hp, h2]

theorem mem_splitScheme_schemeFree (s : Str) :
    ∀ part ∈ splitScheme s, schemeFree part := by
  induction s using splitScheme.induct with
  | case1 rest ih =>
      intro part hp
      rw [splitScheme_sep_cons] at hp
      rcases List.mem_cons.mp hp with hp | hp
      · rw [hp]; rfl
      · exact ih part hp
  | case2 a rest hne hnil ih => exact absurd hnil (splitScheme_ne_nil rest)
  | case3 a rest hne p ps hps ih =>
      intro part hpart
      have heq : splitScheme (a :: rest) = (a :: p) :: ps := by
        simp [splitScheme, hps]
      rw [heq] at hpart
      rcases List.mem_cons.mp hpart with hp | hp
      · subst hp
        have hfp : schemeFree p := ih p (by rw [hps]; exact List.mem_cons_self p ps)
        by_cases hsep : ∃ u, a = ':' ∧ p = '/' :: '/' :: u
        · rcases hsep with ⟨u, ha, hu⟩
          obtain ⟨t, ht⟩ := splitScheme_head_is_pre rest p ps hps
          exact (hne (u ++ t) ha (by rw [← ht, hu]; simp)).elim
        · have hne2 : ∀ u, a = ':' → p = '/' :: '/' :: u → False :=
            fun u ha hu => hsep ⟨u, ha, hu⟩
          show splitScheme (a :: p) = [a :: p]
          have hfp2 : splitScheme p = [p] := hfp
          simp [splitScheme, hfp2]
      · exact ih part (by rw [hps]; exact List.mem_cons_of_mem p hp)
  | case4 =>
      intro part hp
      rw [splitScheme_nil] at hp
      rcases List.mem_cons.mp hp with hp | hp
      · rw [hp]; rfl
      · exact absurd hp (List.not_mem_nil part)

theorem splitScheme_append {x : Str} (hx : schemeFree x) (y : Str) :
    splitScheme (x ++ (schemeSep ++ y)) = x :: splitScheme y := by
  induction x with
  | nil =>
      rw [List.nil_append]
      show splitScheme (':' :: '/' :: '/' :: y) = [] :: splitScheme y
      exact splitScheme_sep_cons y
  | cons a x2 ih =>
      have hx2 : schemeFree x2 := schemeFree_tail hx
      have hne : ∀ r2, a = ':' → x2 ++ (schemeSep ++ y) = '/' :: '/' :: r2 → False := by
        intro r2 ha hr
        cases x2 with
        | nil => simp [schemeSep] at hr
        | cons b x3 =>
            rw [List.cons_append] at hr
            injection hr with hb hr2
            cases x3 with
            | nil => simp [schemeSep] at hr2
            | cons c x4 =>
                rw [List.cons_append] at hr2
                injection hr2 with hc hr3
                subst ha; subst hb; subst hc
                have hbad : splitScheme (':' :: '/' :: '/' :: x4) =
                    [':' :: '/' :: '/' :: x4] := hx
                rw [splitScheme_sep_cons] at hbad
                injection hbad with hb1 hb2
                exact absurd hb1 (by simp)
      have hrec : splitScheme (x2 ++ (schemeSep ++ y)) = x2 :: splitScheme y := ih hx2
      rw [List.cons_append]
      simp [splitScheme, hrec]


theorem goodParts_foldSegs_splitChar (s : Str) :
    goodParts (foldSegs (splitChar '/' s)) := by
  intro x hx
  obtain ⟨hmem, h1, h2⟩ := mem_foldSegs hx
  exact ⟨h1, h2, mem_splitChar_not_mem '/' s x hmem⟩

/-- Every normalized path is either a clean segment join, or a non-empty
scheme-separator-free scheme followed by `"://"` and a clean segment join. -/
theorem normalizePath_shape (p : Str) :
    ∃ L, goodParts L ∧
      (normalizePath p = joinSep ['/'] L ∨
       ∃ s0, schemeFree s0 ∧ s0 ≠ [] ∧
         normalizePath p = s0 ++ (schemeSep ++ joinSep ['/'] L)) := by
  rcases h : splitScheme p with _ | ⟨s0, l⟩
  · exact absurd h (splitScheme_ne_nil p)
  · cases l with
    | nil =>
        refine ⟨foldSegs (splitChar '/' p), goodParts_foldSegs_splitChar p, Or.inl ?_⟩
        simp [normalizePath, h]
    | cons s1 rest =>
        by_cases hs0 : s0 = []
        · refine ⟨foldSegs (splitChar '/' s1), goodParts_foldSegs_splitChar s1, Or.inl ?_⟩
          simp [normalizePath, h, hs0]
        · refine ⟨foldSegs (splitChar '/' s1), goodParts_foldSegs_splitChar s1,
            Or.inr ⟨s0, ?_, hs0, ?_⟩⟩
          · exact mem_splitScheme_schemeFree p s0 (by rw [h]; exact List.mem_cons_self _ _)
          · simp [normalizePath, h, hs0, List.append_assoc]


theorem normalize_fixed {n : Str}
    (hL : ∃ L, goodParts L ∧
      (n = joinSep ['/'] L ∨
       ∃ s0, schemeFree s0 ∧ s0 ≠ [] ∧ n = s0 ++ (schemeSep ++ joinSep ['/'] L)))
    (hshape : schemeShapeOK n = true) :
    normalizePath n = n := by
  obtain ⟨L, hgood, hform⟩ := hL
  have hsl : ∀ x ∈ L, '/' ∉ x := fun x hx => (hgood x hx).2.2
  have hclean : ∀ x ∈ L, x ≠ ['.'] ∧ x ≠ ['.', '.'] :=
    fun x hx => ⟨(hgood x hx).1, (hgood x hx).2.1⟩
  rcases hform with hform | ⟨s0, hs0free, hs0ne, hform⟩
  · by_cases hLnil : L = []
    · have hn : n = [] := by rw [hform, hLnil]; rfl
      rw [hn]
      decide
    · have hLne : L ≠ [] := hLnil
      have hsplit : splitChar '/' n = L := by
        rw [hform]; exact splitChar_joinSep hsl hLne
      rcases hsn : splitScheme n with _ | ⟨t0, l2⟩
      · exact absurd hsn (splitScheme_ne_nil n)
      · cases l2 with
        | nil =>
            have hred : normalizePath n = joinSep ['/'] (foldSegs (splitChar '/' n)) := by
              simp [normalizePath, hsn]
            rw [hred, hsplit, foldSegs_of_clean hclean, ← hform]
        | cons t1 l3 =>
            cases l3 with
            | nil =>
                have ht0 : t0 ≠ [] := by
                  have hcopy := hshape
                  simp [schemeShapeOK, hsn] at hcopy
                  exact hcopy
                have hjoin := joinSep_splitScheme n
                rw [hsn, joinSep_cons_of_ne_nil _ _ (by simp)] at hjoin
                have hn2 : t0 ++ (schemeSep ++ t1) = n := by
                  simpa [List.append_assoc, joinSep] using hjoin
                have hsplit2 : splitChar '/' n
                    = splitChar '/' (t0 ++ [':']) ++ ([] :: splitChar '/' t1) := by
                  rw [← hn2]
                  have hre : t0 ++ (schemeSep ++ t1)
                      = (t0 ++ [':']) ++ '/' :: ('/' :: t1) := by
                    simp [schemeSep]
                  rw [hre, splitChar_append_cons, splitChar_cons_self]
                have hmem : ∀ x ∈ splitChar '/' t1, x ∈ L := by
                  intro x hx
                  rw [← hsplit, hsplit2]
                  exact List.mem_append.mpr (Or.inr (List.mem_cons_of_mem _ hx))
                have hclean2 : ∀ x ∈ splitChar '/' t1, x ≠ ['.'] ∧ x ≠ ['.', '.'] :=
                  fun x hx => hclean x (hmem x hx)
                have hred : normalizePath n
                    = t0 ++ (schemeSep ++ joinSep ['/'] (foldSegs (splitChar '/' t1))) := by
                  simp [normalizePath, hsn, ht0, List.append_assoc]
                rw [hred, foldSegs_of_clean hclean2, joinSep_splitChar, hn2]
            | cons t2 l4 =>
                exfalso
                have hcopy := hshape
                simp [schemeShapeOK, hsn] at hcopy
  · have hss : splitScheme n = s0 :: splitScheme (joinSep ['/'] L) := by
      rw [hform]; exact splitScheme_append hs0free _
    rcases hsn : splitScheme (joinSep ['/'] L) with _ | ⟨t1, l2⟩
    · exact absurd hsn (splitScheme_ne_nil _)
    · cases l2 with
      | nil =>
          have hsn2 : splitScheme n = [s0, t1] := by rw [hss, hsn]
          have ht1 : t1 = joinSep ['/'] L := by
            have hj := joinSep_splitScheme (joinSep ['/'] L)
            rw [hsn] at hj
            simpa [joinSep] using hj
          have hred : normalizePath n
              = s0 ++ (schemeSep ++ joinSep ['/'] (foldSegs (splitChar '/' t1))) := by
            simp [normalizePath, hsn2, hs0ne, List.append_assoc]
          by_cases hLnil : L = []
          · have ht1nil : t1 = [] := by rw [ht1, hLnil]; rfl
            have hval : joinSep ['/'] (foldSegs (splitChar '/' ([] : Str))) = [] := by
              decide
            rw [hred, ht1nil, hval, hform, hLnil]
            rfl
          · have hLne : L ≠ [] := hLnil
            have hsp : splitChar '/' t1 = L := by
              rw [ht1]; exact splitChar_joinSep hsl hLne
            rw [hred, hsp, foldSegs_of_clean hclean, hform]
      | cons t2 l3 =>
          exfalso
          have hsn3 : splitScheme n = s0 :: t1 :: t2 :: l3 := by rw [hss, hsn]
          simp [schemeShapeOK, hsn3] at hshape

/-! ### Root policy lemmas -/

theorem firstRootMatch_eq_find (path : Str) (ds : List Str) :
    firstRootMatch path ds = ds.find? (fun d => d.isPrefixOf path) := by
  induction ds with
  | nil => rfl
  | cons d rest ih =>
      by_cases h : path.take d.length = d
      · have hpre : d <+: path := by
          rw [List.prefix_iff_eq_take]
          exact h.symm
        have hb : d.isPrefixOf path = true := List.isPrefixOf_iff_prefix.mpr hpre
        simp [firstRootMatch, h, List.find?, hb]
      · have hpre : ¬d <+: path := by
          intro hc
          exact h (List.prefix_iff_eq_take.mp hc).symm
        have hb : d.isPrefixOf path = false := by
          rw [Bool.eq_false_iff]
          intro hc
          have hc2 := List.isPrefixOf_iff_prefix.mp hc
          exact hpre hc2
        simp [firstRootMatch, h, List.find?, hb, ih]

/-! ### Job-id sequences -/


theorem runJobIds_eq_range (n : Nat) : ∀ s, runJobIds n s = List.range' (s + 1) n := by
  induction n with
  | zero => intro s; rfl
  | succ n ih =>
      intro s
      show (s + 1) :: runJobIds n (s + 1) = List.range' (s + 1) (n + 1)
      rw [ih (s + 1)]
      rfl

theorem pairwise_lt_range1 (n : Nat) : ∀ s, List.Pairwise (· < ·) (List.range' s n) := by
  induction n with
  | zero => intro s; exact List.Pairwise.nil
  | succ n ih =>
      intro s
      refine List.Pairwise.cons ?_ (ih (s + 1))
      intro x hx
      have := (List.mem_range'_1.mp hx).1
      omega


/-! ### Claim theorems for the path normalizer, root policy and job ids -/

/-- Claim C6, counterexample: normalization is not idempotent.  For
`p = "s://a:/.//b"` the body `"a:/.//b"` normalizes to `"a://b"`, so
`normalize(p) = "s://a://b"` regains a second `"://"`, and normalizing again
keeps only the text up to it: `normalize(normalize(p)) = "s://a"`. -/
theorem c6_counterexample :
    normalizePath (normalizePath ("s://a:/.//b".data)) ≠
      normalizePath ("s://a:/.//b".data) := by decide

/-- Claim C6 (amended): normalization is idempotent for every path whose
normalized form contains at most one occurrence of `"://"` and, when it
contains exactly one, does not begin with it.  (The unrestricted claim fails
only when normalization of the body manufactures a new `"://"`, as in the
counterexample.) -/
theorem c6_normalize_idempotent_amended (p : Str)
    (h : schemeShapeOK (normalizePath p) = true) :
    normalizePath (normalizePath p) = normalizePath p :=
  normalize_fixed (normalizePath_shape p) h

/-- Witness for C6 (amended) at the concrete path `"scheme://x/../y"`. -/
theorem c6_witness :
    schemeShapeOK (normalizePath ("scheme://x/../y".data)) = true ∧
      normalizePath (normalizePath ("scheme://x/../y".data)) =
        normalizePath ("scheme://x/../y".data) :=
  ⟨by decide, c6_normalize_idempotent_amended _ (by decide)⟩

/-- Claim C7: normalization follows the left fold over `/`-split segments in
which `.` segments are dropped, `..` segments pop the most recently kept
segment (a no-op on an empty accumulator), and all other segments are kept
in order; in particular `normalize("a/b/./c/../d") = "a/b/d"` and
`normalize("scheme://x/../y") = "scheme://y"`. -/
theorem c7_normalize_fold :
    normalizePath ("a/b/./c/../d".data) = "a/b/d".data ∧
    normalizePath ("scheme://x/../y".data) = "scheme://y".data ∧
    (∀ segs : List Str, foldSegs segs =
      segs.foldl (fun acc q =>
        if q = ".".data then acc
        else if q = "..".data then acc.dropLast
        else acc ++ [q]) []) ∧
    (∀ l (q : Str), q ≠ ['.'] → q ≠ ['.', '.'] →
      foldSegs (l ++ [q]) = foldSegs l ++ [q]) ∧
    (∀ l, foldSegs (l ++ [['.']]) = foldSegs l) ∧
    (∀ l, foldSegs (l ++ [['.', '.']]) = (foldSegs l).dropLast) ∧
    (∀ segs, foldSegs (['.', '.'] :: segs) = foldSegs segs) := by
  refine ⟨by decide, by decide, fun segs => rfl, ?_, ?_, ?_, fun segs => rfl⟩
  · intro l q h1 h2
    unfold foldSegs
    rw [List.foldl_append]
    show segStep (List.foldl segStep [] l) q = List.foldl segStep [] l ++ [q]
    unfold segStep
    rw [if_neg h1, if_neg h2]
  · intro l
    unfold foldSegs
    rw [List.foldl_append]
    rfl
  · intro l
    unfold foldSegs
    rw [List.foldl_append]
    rfl

/-- Witness for C7's universally quantified fold clauses at concrete
segments. -/
theorem c7_witness :
    foldSegs (["a".data] ++ ["b".data]) = foldSegs ["a".data] ++ ["b".data] :=
  c7_normalize_fold.2.2.2.1 ["a".data] ("b".data) (by decide) (by decide)

/-- Claim C8: `rootDir` returns the first sandboxed root — in the fixed
priority order caches, documents, then (iOS only) library, which is exactly
the order of `validDirs` — that is a literal string prefix of the normalized
path, and `null` when no configured root is a prefix. -/
theorem c8_rootDir_first_prefix_match (cfg : Config) (p : Str) :
    rootDir cfg p = (validDirs cfg).find? (fun d => d.isPrefixOf (normalizePath p)) ∧
    ((∀ d ∈ validDirs cfg, ¬d <+: normalizePath p) → rootDir cfg p = none) := by
  constructor
  · exact firstRootMatch_eq_find (normalizePath p) (validDirs cfg)
  · intro h
    rw [rootDir, firstRootMatch_eq_find]
    rw [List.find?_eq_none]
    intro d hd
    rw [Bool.not_eq_true, Bool.eq_false_iff]
    intro hc
    have hc2 := List.isPrefixOf_iff_prefix.mp hc
    exact h d hd hc2

/-- Witness for C8 at a concrete configuration and path: the caches root
owns a path under it, and an outside path gets `null`. -/
theorem c8_witness :
    (rootDir cfgW ("/C/siphon-data-app/f.txt".data) =
        (validDirs cfgW).find?
          (fun d => d.isPrefixOf (normalizePath ("/C/siphon-data-app/f.txt".data)))) ∧
    rootDir cfgW ("/nope".data) = none :=
  ⟨(c8_rootDir_first_prefix_match cfgW ("/C/siphon-data-app/f.txt".data)).1,
   (c8_rootDir_first_prefix_match cfgW ("/nope".data)).2 (by decide)⟩

/-- Claim C9: job identifiers come from a single pre-incremented counter
starting above zero: any `n` successive `getJobId` calls yield `n` distinct
ids, strictly increasing in issuance order, all greater than the counter
state they started from (hence never reused), and all positive from the
initial state `0`. -/
theorem c9_jobIds_strictly_increasing (n s : Nat) :
    (runJobIds n s).length = n ∧
    List.Pairwise (· < ·) (runJobIds n s) ∧
    (runJobIds n s).Nodup ∧
    (∀ x ∈ runJobIds n s, s < x) ∧
    (∀ x ∈ runJobIds n 0, 0 < x) := by
  rw [runJobIds_eq_range]
  refine ⟨by simp, pairwise_lt_range1 n (s + 1), ?_, ?_, ?_⟩
  · exact (pairwise_lt_range1 n (s + 1)).imp Nat.ne_of_lt
  · intro x hx
    have := (List.mem_range'_1.mp hx).1
    omega
  · rw [runJobIds_eq_range]
    intro x hx
    have := (List.mem_range'_1.mp hx).1
    omega

/-- Witness for C9 at three successive calls from the initial counter. -/
theorem c9_witness : (runJobIds 3 0).length = 3 :=
  (c9_jobIds_strictly_increasing 3 0).1

/-- Claim C10: when a path contains `"://"` more than once, only the text
between the first and second occurrences is kept as the path body:
normalization of `p` agrees with normalization of `p` truncated at the
second occurrence, and `normalize("a://b://c") = "a://b"`. -/
theorem c10_second_scheme_discarded :
    (∀ p s0 s1 rest, splitScheme p = s0 :: s1 :: rest →
        normalizePath p = normalizePath (s0 ++ (schemeSep ++ s1))) ∧
    normalizePath ("a://b://c".data) = "a://b".data := by
  constructor
  · intro p s0 s1 rest h
    have hs0 : schemeFree s0 :=
      mem_splitScheme_schemeFree p s0 (by rw [h]; exact List.mem_cons_self _ _)
    have hs1 : schemeFree s1 :=
      mem_splitScheme_schemeFree p s1
        (by rw [h]; exact List.mem_cons_of_mem _ (List.mem_cons_self _ _))
    have hsplit : splitScheme (s0 ++ (schemeSep ++ s1)) = [s0, s1] := by
      rw [splitScheme_append hs0, hs1]
    simp [normalizePath, h, hsplit]
  · decide

/-- Witness for C10's truncation clause at `p = "a://b://c"`. -/
theorem c10_witness :
    normalizePath ("a://b://c".data) =
      normalizePath ("a".data ++ (schemeSep ++ "b".data)) :=
  c10_second_scheme_discarded.1 ("a://b://c".data) ("a".data) ("b".data)
    ["c".data] (by decide)

/-! ### Root guarantor scenario lemmas -/

theorem convertError_plain (m : Str) : convertError (plainError m) = plainError m := rfl

theorem ensure_invalid {cfg : Config} (o : Oracle) {p : Str}
    (h : rootDir cfg p = none) :
    ensureValidRoot cfg o p =
      { preSettle := [.ensure p]
        result := .error (plainError invalidRootMsg)
        postSettle := [.mkdirNative none false] } := by
  unfold ensureValidRoot
  rw [h]

theorem ensure_valid {cfg : Config} (o : Oracle) {p root : Str}
    (h : rootDir cfg p = some root) :
    ensureValidRoot cfg o p =
      { preSettle := [.ensure p,
          .mkdirNative (some root) (decide (root = processDirPath cfg cfg.cachesBase))]
        result := (o.mkdirRes (some root)
          (decide (root = processDirPath cfg cfg.cachesBase))).map (fun _ => ())
        postSettle := [] } := by
  unfold ensureValidRoot
  rw [h]

theorem ensure_trace_cons (cfg : Config) (o : Oracle) (p : Str) :
    ∃ rest, (ensureValidRoot cfg o p).trace = Call.ensure p :: rest := by
  rcases h : rootDir cfg p with _ | root
  · exact ⟨[.mkdirNative none false], by rw [ensure_invalid o h]; rfl⟩
  · exact ⟨[.mkdirNative (some root)
      (decide (root = processDirPath cfg cfg.cachesBase))],
      by rw [ensure_valid o h]; rfl⟩

theorem ensure_trace_countP (cfg : Config) (o : Oracle) (p : Str) :
    (ensureValidRoot cfg o p).trace.countP isEnsure = 1 := by
  rcases h : rootDir cfg p with _ | root
  · rw [ensure_invalid o h]
    simp [EnsureResult.trace, List.countP_cons, isEnsure]
  · rw [ensure_valid o h]
    simp [EnsureResult.trace, List.countP_cons, isEnsure]

/-! ### Claim C1 -/

/-- Claim C1: for every path owned by no sandboxed root, the guarantor
rejects with the `InvalidRoot` error — whose message names the three legal
roots — before any directory-creation call is made (its pre-settlement trace
contains no `_mkdir` call; the stray `_mkdir(null, false)` issued by the
missing-return slip lands only after the rejection), and every public file
operation settles with that same `InvalidRoot` error. -/
theorem c1_invalid_root (cfg : Config) (o : Oracle) (p : Str)
    (h : rootDir cfg p = none) :
    ((ensureValidRoot cfg o p).result = .error (plainError invalidRootMsg) ∧
      (ensureValidRoot cfg o p).preSettle.countP isMkdirCall = 0 ∧
      (ensureValidRoot cfg o p).postSettle = [.mkdirNative none false]) ∧
    (containsSub invalidRootMsg ("DocumentDirectoryPath".data) = true ∧
      containsSub invalidRootMsg ("CachesDirectoryPath".data) = true ∧
      containsSub invalidRootMsg ("LibraryDirectoryPath".data) = true) ∧
    (readDir cfg o p).2 = .error (plainError invalidRootMsg) ∧
    (readdir cfg o p).2 = .error (plainError invalidRootMsg) ∧
    (stat cfg o p).2 = .error (plainError invalidRootMsg) ∧
    (existsOp cfg o p).2 = .error (plainError invalidRootMsg) ∧
    (∀ enc, (readFile cfg o p enc).2 = .error (plainError invalidRootMsg)) ∧
    (∀ contents enc options,
      effEncoding enc = utf8E ∨ effEncoding enc = asciiE ∨ effEncoding enc = base64E →
      (writeFile cfg o p contents enc options).2 = .error (plainError invalidRootMsg)) ∧
    (∀ dest, (moveFile cfg o p dest).2 = .error (plainError invalidRootMsg)) ∧
    (unlink cfg o p).2 = .error (plainError invalidRootMsg) ∧
    (∀ excl, (mkdir cfg o p excl).2 = .error (plainError invalidRootMsg)) ∧
    (∀ jc fromUrl hb hp,
      (downloadFile cfg o jc fromUrl p hb hp).2.2 = .error (plainError invalidRootMsg)) := by
  have hE := ensure_invalid o h
  refine ⟨⟨by rw [hE], by rw [hE]; rfl, by rw [hE]⟩,
    ⟨by decide, by decide, by decide⟩, ?_, ?_, ?_, ?_, ?_, ?_, ?_, ?_, ?_, ?_⟩
  · simp [readDir, hE, convertError_plain]
  · simp [readdir, hE]
  · simp [stat, hE]
  · simp [existsOp, hE]
  · intro enc
    simp [readFile, hE]
  · intro contents enc options henc
    rcases henc with h1 | h1 | h1 <;>
      simp [writeFile, hE, h1]
  · intro dest
    simp [moveFile, hE]
  · simp [unlink, hE]
  · intro excl
    simp [mkdir, hE]
  · intro jc fromUrl hb hp
    simp [downloadFile, hE]

/-- Witness for C1 at the concrete configuration `cfgW` and the outside path
`"/nope"`. -/
theorem c1_witness :
    rootDir cfgW ("/nope".data) = none ∧
      (readdir cfgW okOracle ("/nope".data)).2 = .error (plainError invalidRootMsg) :=
  ⟨by decide,
   (c1_invalid_root cfgW okOracle ("/nope".data) (by decide)).2.2.2.1⟩

/-! ### Claim C5 -/


theorem guard_shape2 (cfg : Config) (o : Oracle) (p : Str) {t : List Call}
    (pre tail : List Call)
    (ht : t = pre ++ ((ensureValidRoot cfg o p).trace ++ tail))
    (hpre : ∀ c ∈ pre, isFsPrim c = false)
    (hpre2 : pre.countP isEnsure = 0)
    (htail : tail.countP isEnsure = 0) :
    guardFirst p t ∧ t.countP isEnsure = 1 := by
  obtain ⟨rest, hr⟩ := ensure_trace_cons cfg o p
  constructor
  · exact ⟨pre, rest ++ tail, by rw [ht, hr]; simp, hpre⟩
  · rw [ht]
    simp [List.countP_append, hpre2, htail, ensure_trace_countP]

theorem guard_shape (cfg : Config) (o : Oracle) (p : Str) {t : List Call}
    (tail : List Call)
    (ht : t = (ensureValidRoot cfg o p).trace ++ tail)
    (htail : tail.countP isEnsure = 0) :
    guardFirst p t ∧ t.countP isEnsure = 1 :=
  guard_shape2 cfg o p [] tail (by rw [ht]; rfl) (by simp) (by simp) htail

theorem dlAdds_not_prim (b : Bool) (m : Mech) (ch : Str) (cb : CB) :
    ∀ c ∈ dlAdds b m ch cb, isFsPrim c = false := by
  intro c hc
  cases b
  · simp [dlAdds] at hc
  · simp [dlAdds] at hc
    rw [hc]
    rfl

theorem dlAdds_countP (b : Bool) (m : Mech) (ch : Str) (cb : CB) :
    (dlAdds b m ch cb).countP isEnsure = 0 := by
  cases b <;> simp [dlAdds, isEnsure]

theorem mem_if_list {c : Call} (b : Bool) (l : List Call)
    (h : c ∈ if b then l else []) : c ∈ l := by
  cases b
  · simp at h
  · simpa using h

theorem dlSetup_not_prim (o : Oracle) (jid : Nat) (cb : CB) (hp : Bool) :
    ∀ c ∈ dlSetup o jid cb hp, isFsPrim c = false := by
  intro c hc
  unfold dlSetup at hc
  rcases List.mem_append.mp hc with hc | hc
  · rcases List.mem_append.mp hc with hc | hc
    · exact dlAdds_not_prim _ _ _ _ c hc
    · exact dlAdds_not_prim _ _ _ _ c hc
  · rcases List.mem_append.mp (mem_if_list hp _ hc) with hc | hc
    · exact dlAdds_not_prim _ _ _ _ c hc
    · exact dlAdds_not_prim _ _ _ _ c hc

theorem dlSetup_countP (o : Oracle) (jid : Nat) (cb : CB) (hp : Bool) :
    (dlSetup o jid cb hp).countP isEnsure = 0 := by
  unfold dlSetup
  cases hp <;> simp [List.countP_append, dlAdds_countP]

theorem readDir_countP (cfg : Config) (o : Oracle) (p : Str) :
    (readDir cfg o p).1.countP isEnsure = 1 := by
  rcases hres : (ensureValidRoot cfg o p).result with e | u
  · exact (guard_shape cfg o p [] (by simp [readDir, hres]) (by simp)).2
  · rcases hrd : o.readDirRes p with e2 | files <;>
      exact (guard_shape cfg o p [.readDirNative p] (by simp [readDir, hres, hrd])
        (by simp [isEnsure])).2

/-- Claim C5, counterexample: a successful `readdir` call invokes the Root
Guarantor twice — once directly and once through its delegation to
`readDir` — so the guarantor is not invoked exactly once per public call. -/
theorem c5_counterexample :
    (readdir cfgW okOracle goodPath).1.countP isEnsure = 2 ∧
      (readdir cfgW okOracle goodPath).2 = .ok [] := by
  constructor
  · decide
  · decide

/-- Claim C5 (amended): every public file operation invokes the Root
Guarantor on its original target path argument (the source path for
`moveFile`, the destination file for `downloadFile`) before any underlying
file-system primitive, and invokes it exactly once per call — except
`readdir`, which invokes it a second time through `readDir` when its own
guard succeeds, and `writeFile` with an unrecognized encoding, which throws
synchronously and invokes nothing at all. -/
theorem c5_guard_amended (cfg : Config) (o : Oracle) :
    (∀ p, guardFirst p (readDir cfg o p).1 ∧ (readDir cfg o p).1.countP isEnsure = 1) ∧
    (∀ p, guardFirst p (readdir cfg o p).1 ∧
      ((ensureValidRoot cfg o p).result = .ok () →
        (readdir cfg o p).1.countP isEnsure = 2) ∧
      (∀ e, (ensureValidRoot cfg o p).result = .error e →
        (readdir cfg o p).1.countP isEnsure = 1)) ∧
    (∀ p, guardFirst p (stat cfg o p).1 ∧ (stat cfg o p).1.countP isEnsure = 1) ∧
    (∀ p, guardFirst p (existsOp cfg o p).1 ∧ (existsOp cfg o p).1.countP isEnsure = 1) ∧
    (∀ p enc, guardFirst p (readFile cfg o p enc).1 ∧
      (readFile cfg o p enc).1.countP isEnsure = 1) ∧
    (∀ p contents enc options,
      (effEncoding enc = utf8E ∨ effEncoding enc = asciiE ∨ effEncoding enc = base64E) →
      guardFirst p (writeFile cfg o p contents enc options).1 ∧
        (writeFile cfg o p contents enc options).1.countP isEnsure = 1) ∧
    (∀ p contents enc options,
      effEncoding enc ≠ utf8E → effEncoding enc ≠ asciiE → effEncoding enc ≠ base64E →
      (writeFile cfg o p contents enc options).1 = []) ∧
    (∀ src dst, guardFirst src (moveFile cfg o src dst).1 ∧
      (moveFile cfg o src dst).1.countP isEnsure = 1) ∧
    (∀ p, guardFirst p (unlink cfg o p).1 ∧ (unlink cfg o p).1.countP isEnsure = 1) ∧
    (∀ p excl, guardFirst p (mkdir cfg o p excl).1 ∧
      (mkdir cfg o p excl).1.countP isEnsure = 1) ∧
    (∀ jc fromUrl toFile hb hp,
      guardFirst toFile (downloadFile cfg o jc fromUrl toFile hb hp).2.1 ∧
        (downloadFile cfg o jc fromUrl toFile hb hp).2.1.countP isEnsure = 1) := by
  refine ⟨?_, ?_, ?_, ?_, ?_, ?_, ?_, ?_, ?_, ?_, ?_⟩
  · intro p
    rcases hres : (ensureValidRoot cfg o p).result with e | u
    · exact guard_shape cfg o p [] (by simp [readDir, hres]) (by simp)
    · rcases hrd : o.readDirRes p with e2 | files <;>
        exact guard_shape cfg o p [.readDirNative p] (by simp [readDir, hres, hrd])
          (by simp [isEnsure])
  · intro p
    rcases hres : (ensureValidRoot cfg o p).result with e | u
    · refine ⟨?_, ?_, ?_⟩
      · obtain ⟨rest, hr⟩ := ensure_trace_cons cfg o p
        exact ⟨[], rest, by simp [readdir, hres, hr], by simp⟩
      · intro hok
        exact absurd hok (by simp)
      · intro e2 _
        have ht : (readdir cfg o p).1 = (ensureValidRoot cfg o p).trace := by
          simp [readdir, hres]
        rw [ht, ensure_trace_countP]
    · refine ⟨?_, ?_, ?_⟩
      · obtain ⟨rest, hr⟩ := ensure_trace_cons cfg o p
        refine ⟨[], rest ++ (readDir cfg o p).1, ?_, by simp⟩
        simp [readdir, hres, hr]
      · intro _
        have ht : (readdir cfg o p).1
            = (ensureValidRoot cfg o p).trace ++ (readDir cfg o p).1 := by
          simp [readdir, hres]
        rw [ht, List.countP_append, ensure_trace_countP, readDir_countP]
      · intro e2 he2
        exact absurd he2 (by simp)
  · intro p
    rcases hres : (ensureValidRoot cfg o p).result with e | u
    · exact guard_shape cfg o p [] (by simp [stat, hres]) (by simp)
    · rcases hs : o.statRes p with e2 | r <;>
        exact guard_shape cfg o p [.statNative p] (by simp [stat, hres, hs])
          (by simp [isEnsure])
  · intro p
    rcases hres : (ensureValidRoot cfg o p).result with e | u
    · exact guard_shape cfg o p [] (by simp [existsOp, hres]) (by simp)
    · rcases hs : o.existsRes p with e2 | b <;>
        exact guard_shape cfg o p [.existsNative p] (by simp [existsOp, hres, hs])
          (by simp [isEnsure])
  · intro p enc
    rcases hres : (ensureValidRoot cfg o p).result with e | u
    · exact guard_shape cfg o p [] (by simp [readFile, hres]) (by simp)
    · rcases hs : o.readFileRes p with e2 | b64 <;>
        exact guard_shape cfg o p [.readFileNative p] (by simp [readFile, hres, hs])
          (by simp [isEnsure])
  · intro p contents enc options henc
    have hcond : (effEncoding enc = utf8E ∨ effEncoding enc = asciiE ∨
        effEncoding enc = base64E) := henc
    rcases hres : (ensureValidRoot cfg o p).result with e | u
    · exact guard_shape cfg o p [] (by simp [writeFile, if_pos hcond, hres]) (by simp)
    · rcases hs : o.writeFileRes p
          (if effEncoding enc = utf8E then o.b64encode (o.utf8encode contents)
           else if effEncoding enc = asciiE then o.b64encode contents
           else contents) options with e2 | r <;>
        exact guard_shape cfg o p [.writeFileNative p
            (if effEncoding enc = utf8E then o.b64encode (o.utf8encode contents)
             else if effEncoding enc = asciiE then o.b64encode contents
             else contents) options]
          (by simp [writeFile, if_pos hcond, hres, hs]) (by simp [isEnsure])
  · intro p contents enc options h1 h2 h3
    have hcond : ¬(effEncoding enc = utf8E ∨ effEncoding enc = asciiE ∨
        effEncoding enc = base64E) := by
      intro hc
      rcases hc with hc | hc | hc
      · exact h1 hc
      · exact h2 hc
      · exact h3 hc
    simp [writeFile, if_neg hcond]
  · intro src dst
    rcases hres : (ensureValidRoot cfg o src).result with e | u
    · exact guard_shape cfg o src [] (by simp [moveFile, hres]) (by simp)
    · rcases hs : o.moveFileRes src dst with e2 | r <;>
        exact guard_shape cfg o src [.moveFileNative src dst]
          (by simp [moveFile, hres, hs]) (by simp [isEnsure])
  · intro p
    rcases hres : (ensureValidRoot cfg o p).result with e | u
    · exact guard_shape cfg o p [] (by simp [unlink, hres]) (by simp)
    · rcases hs : o.unlinkRes p with e2 | r <;>
        exact guard_shape cfg o p [.unlinkNative p] (by simp [unlink, hres, hs])
          (by simp [isEnsure])
  · intro p excl
    rcases hres : (ensureValidRoot cfg o p).result with e | u
    · exact guard_shape cfg o p [] (by simp [mkdir, hres]) (by simp)
    · rcases hs : o.mkdirRes (some p) (excl.getD false) with e2 | r <;>
        exact guard_shape cfg o p [.mkdirNative (some p) (excl.getD false)]
          (by simp [mkdir, hres, hs]) (by simp [isEnsure])
  · intro jc fromUrl toFile hb hp
    rcases hres : (ensureValidRoot cfg o toFile).result with e | u
    · exact guard_shape2 cfg o toFile
        (dlSetup o (jc + 1) (if hb then CB.userBegin else CB.defaultBeginLog) hp) []
        (by simp [downloadFile, getJobId, hres])
        (dlSetup_not_prim o (jc + 1) _ hp)
        (dlSetup_countP o (jc + 1) _ hp) (by simp)
    · rcases hdl : o.downloadRes fromUrl toFile (jc + 1) with e2 | r
      · exact guard_shape2 cfg o toFile
          (dlSetup o (jc + 1) (if hb then CB.userBegin else CB.defaultBeginLog) hp)
          [.downloadNative fromUrl toFile (jc + 1)]
          (by simp [downloadFile, getJobId, hres, hdl])
          (dlSetup_not_prim o (jc + 1) _ hp)
          (dlSetup_countP o (jc + 1) _ hp) (by simp [isEnsure])
      · exact guard_shape2 cfg o toFile
          (dlSetup o (jc + 1) (if hb then CB.userBegin else CB.defaultBeginLog) hp)
          ([.downloadNative fromUrl toFile (jc + 1)]
            ++ ((match (if hp && o.iosAvailable then
                    some (Handle.mk .ios (dlProgressChannel (jc + 1)))
                  else if o.iosAvailable then
                    some (Handle.mk .ios (dlBeginChannel (jc + 1)))
                  else none : Option Handle) with
                 | some h => [Call.removeListener h.mech h.channel]
                 | none => [])
              ++ (match (if hp && o.androidAvailable then
                      some (Handle.mk .android (dlProgressChannel (jc + 1)))
                    else if o.androidAvailable then
                      some (Handle.mk .android (dlBeginChannel (jc + 1)))
                    else none : Option Handle) with
                  | some h => [Call.removeListener h.mech h.channel]
                  | none => [])))
          (by simp [downloadFile, getJobId, hres, hdl])
          (dlSetup_not_prim o (jc + 1) _ hp)
          (dlSetup_countP o (jc + 1) _ hp)
          (by
            rw [List.countP_append]
            have hone : ∀ oh : Option Handle,
                (match oh with
                 | some h => [Call.removeListener h.mech h.channel]
                 | none => ([] : List Call)).countP isEnsure = 0 := by
              intro oh
              rcases oh with _ | h <;> simp [isEnsure]
            rw [List.countP_append, hone, hone]
            rfl)

/-- Witness for C5 (amended): a concrete `stat` call guards first and
invokes the guarantor exactly once. -/
theorem c5_witness :
    guardFirst goodPath (stat cfgW okOracle goodPath).1 ∧
      (stat cfgW okOracle goodPath).1.countP isEnsure = 1 :=
  (c5_guard_amended cfgW okOracle).2.2.1 goodPath

/-! ### Claim C3 -/

/-- Claim C3, counterexample: `readFile` with the unrecognized encoding
`"hex"` does fail with the `InvalidArgument` encoding error, but only after
the underlying read primitive has been invoked — the trace contains the
native read call, contradicting failure before any I/O. -/
theorem c3_counterexample :
    Call.readFileNative goodPath
        ∈ (readFile cfgW okOracle goodPath (some ("hex".data))).1 ∧
      (readFile cfgW okOracle goodPath (some ("hex".data))).2 =
        .error (plainError (invalidEncodingMsg ("hex".data))) := by
  constructor
  · decide
  · decide

/-- Claim C3 (amended): a present, non-empty, unrecognized encoding makes
`writeFile` fail synchronously with the `InvalidArgument` encoding error
before any call at all (empty trace); `readFile` fails with the same error
but only after the underlying read primitive has been invoked and
succeeded.  (An empty-string encoding is falsy and silently defaults to
`utf8` in both.) -/
theorem c3_invalid_encoding_amended :
    (∀ (cfg : Config) (o : Oracle) (p contents : Str) (enc options : Option Str),
      effEncoding enc ≠ utf8E → effEncoding enc ≠ asciiE → effEncoding enc ≠ base64E →
      writeFile cfg o p contents enc options
        = ([], .error (plainError (invalidEncodingMsg (effEncoding enc))))) ∧
    (∀ (cfg : Config) (o : Oracle) (p b64 : Str) (enc : Option Str),
      effEncoding enc ≠ utf8E → effEncoding enc ≠ asciiE → effEncoding enc ≠ base64E →
      (ensureValidRoot cfg o p).result = .ok () →
      o.readFileRes p = .ok b64 →
      (readFile cfg o p enc).2 =
          .error (plainError (invalidEncodingMsg (effEncoding enc))) ∧
        Call.readFileNative p ∈ (readFile cfg o p enc).1) := by
  constructor
  · intro cfg o p contents enc options h1 h2 h3
    have hcond : ¬(effEncoding enc = utf8E ∨ effEncoding enc = asciiE ∨
        effEncoding enc = base64E) := by
      intro hc
      rcases hc with hc | hc | hc
      exacts [h1 hc, h2 hc, h3 hc]
    simp [writeFile, if_neg hcond]
  · intro cfg o p b64 enc h1 h2 h3 hok hread
    constructor
    · simp [readFile, hok, hread, h1, h2, h3, convertError_plain]
    · simp [readFile, hok, hread]

/-- Witness for C3 (amended) at a concrete `writeFile` call. -/
theorem c3_witness :
    writeFile cfgW okOracle goodPath ("hi".data) (some ("hex".data)) none
      = ([], .error (plainError (invalidEncodingMsg (effEncoding (some ("hex".data)))))) :=
  c3_invalid_encoding_amended.1 cfgW okOracle goodPath ("hi".data)
    (some ("hex".data)) none (by decide) (by decide) (by decide)

/-! ### Trace equations for downloadFile -/

theorem downloadFile_err_eq (cfg : Config) (o : Oracle) (jc : Nat)
    (fromUrl toFile : Str) (hb hp : Bool) {e : JsError}
    (hres : (ensureValidRoot cfg o toFile).result = .error e) :
    downloadFile cfg o jc fromUrl toFile hb hp =
      (jc + 1,
       dlSetup o (jc + 1) (if hb then CB.userBegin else CB.defaultBeginLog) hp
         ++ (ensureValidRoot cfg o toFile).trace,
       .error e) := by
  simp [downloadFile, getJobId, hres]

theorem downloadFile_dlerr_eq (cfg : Config) (o : Oracle) (jc : Nat)
    (fromUrl toFile : Str) (hb hp : Bool) {e : JsError}
    (hres : (ensureValidRoot cfg o toFile).result = .ok ())
    (hdl : o.downloadRes fromUrl toFile (jc + 1) = .error e) :
    downloadFile cfg o jc fromUrl toFile hb hp =
      (jc + 1,
       dlSetup o (jc + 1) (if hb then CB.userBegin else CB.defaultBeginLog) hp
         ++ ((ensureValidRoot cfg o toFile).trace
           ++ [.downloadNative fromUrl toFile (jc + 1)]),
       .error (convertError e)) := by
  simp [downloadFile, getJobId, hres, hdl]

theorem downloadFile_ok_eq (cfg : Config) (o : Oracle) (jc : Nat)
    (fromUrl toFile : Str) (hb hp : Bool) {r : Str}
    (hres : (ensureValidRoot cfg o toFile).result = .ok ())
    (hdl : o.downloadRes fromUrl toFile (jc + 1) = .ok r) :
    downloadFile cfg o jc fromUrl toFile hb hp =
      (jc + 1,
       dlSetup o (jc + 1) (if hb then CB.userBegin else CB.defaultBeginLog) hp
         ++ ((ensureValidRoot cfg o toFile).trace
           ++ ([.downloadNative fromUrl toFile (jc + 1)]
             ++ (slotRemove o.iosAvailable .ios hp (jc + 1)
               ++ slotRemove o.androidAvailable .android hp (jc + 1)))),
       .ok r) := by
  cases hp <;> cases hios : o.iosAvailable <;> cases hand : o.androidAvailable <;>
    simp [downloadFile, getJobId, hres, hdl, slotRemove, hios, hand]

theorem downloadFile_setup_head (cfg : Config) (o : Oracle) (jc : Nat)
    (fromUrl toFile : Str) (hb hp : Bool) :
    ∃ rest, (downloadFile cfg o jc fromUrl toFile hb hp).2.1 =
      dlSetup o (jc + 1) (if hb then CB.userBegin else CB.defaultBeginLog) hp ++ rest := by
  rcases hres : (ensureValidRoot cfg o toFile).result with e0 | u0
  · exact ⟨_, by rw [downloadFile_err_eq cfg o jc fromUrl toFile hb hp hres]⟩
  · rcases hdl : o.downloadRes fromUrl toFile (jc + 1) with e1 | r1
    · exact ⟨_, by rw [downloadFile_dlerr_eq cfg o jc fromUrl toFile hb hp hres hdl]⟩
    · exact ⟨_, by rw [downloadFile_ok_eq cfg o jc fromUrl toFile hb hp hres hdl]⟩

theorem dlAdds_countP_rm (b : Bool) (m : Mech) (ch : Str) (cb : CB) :
    (dlAdds b m ch cb).countP isRemoveListener = 0 := by
  cases b <;> simp [dlAdds, isRemoveListener]

theorem dlSetup_countP_rm (o : Oracle) (jid : Nat) (cb : CB) (hp : Bool) :
    (dlSetup o jid cb hp).countP isRemoveListener = 0 := by
  unfold dlSetup
  cases hp <;> simp [List.countP_append, dlAdds_countP_rm]

theorem ensure_trace_countP_rm (cfg : Config) (o : Oracle) (p : Str) :
    (ensureValidRoot cfg o p).trace.countP isRemoveListener = 0 := by
  rcases h : rootDir cfg p with _ | root
  · rw [ensure_invalid o h]
    simp [EnsureResult.trace, List.countP_cons, isRemoveListener]
  · rw [ensure_valid o h]
    simp [EnsureResult.trace, List.countP_cons, isRemoveListener]

theorem slotRemove_countP (b : Bool) (m : Mech) (hp : Bool) (jid : Nat) :
    (slotRemove b m hp jid).countP isRemoveListener = if b then 1 else 0 := by
  cases b <;> simp [slotRemove, isRemoveListener]

/-! ### Claim C2 -/

/-- Claim C2, counterexample: a download that settles with an error releases
no subscription handle at all — one subscription was attached (user begin
callback, iOS emitter available), the native download fails, and the trace
contains no `remove()` call, contradicting release-on-every-settlement. -/
theorem c2_counterexample :
    (downloadFile cfgW dlFailOracle 0 ("http://u".data) goodPath true false).2.1.countP
        isAddListener = 1 ∧
      (downloadFile cfgW dlFailOracle 0 ("http://u".data) goodPath true false).2.1.countP
        isRemoveListener = 0 ∧
      (downloadFile cfgW dlFailOracle 0 ("http://u".data) goodPath true false).2.2 =
        .error (plainError ("netfail".data)) := by
  refine ⟨by decide, by decide, by decide⟩

/-- Claim C2 (amended): only on *successful* settlement are subscription
handles released, and only those still held in the two slot variables — the
progress handle per available mechanism when a progress callback was
supplied (begin handles having been overwritten and leaked), else the begin
handle — each exactly once; on error settlement (guard failure or native
download failure) no handle is released at all. -/
theorem c2_release_amended (cfg : Config) (o : Oracle) (jc : Nat)
    (fromUrl toFile : Str) (hb hp : Bool) :
    (∀ r, (downloadFile cfg o jc fromUrl toFile hb hp).2.2 = .ok r →
      (downloadFile cfg o jc fromUrl toFile hb hp).2.1.countP isRemoveListener =
          ((if o.iosAvailable then 1 else 0) + (if o.androidAvailable then 1 else 0)) ∧
        ∃ pre, (downloadFile cfg o jc fromUrl toFile hb hp).2.1 =
            pre ++ (slotRemove o.iosAvailable .ios hp (jc + 1)
              ++ slotRemove o.androidAvailable .android hp (jc + 1)) ∧
          pre.countP isRemoveListener = 0) ∧
    (∀ e, (downloadFile cfg o jc fromUrl toFile hb hp).2.2 = .error e →
      (downloadFile cfg o jc fromUrl toFile hb hp).2.1.countP isRemoveListener = 0) := by
  rcases hres : (ensureValidRoot cfg o toFile).result with e0 | u0
  · have heq := downloadFile_err_eq cfg o jc fromUrl toFile hb hp hres
    constructor
    · intro r h
      rw [heq] at h
      exact absurd h (by simp)
    · intro e h
      rw [heq]
      simp [List.countP_append, dlSetup_countP_rm, ensure_trace_countP_rm]
  · rcases hdl : o.downloadRes fromUrl toFile (jc + 1) with e1 | r1
    · have heq := downloadFile_dlerr_eq cfg o jc fromUrl toFile hb hp hres hdl
      constructor
      · intro r h
        rw [heq] at h
        exact absurd h (by simp)
      · intro e h
        rw [heq]
        simp [List.countP_append, dlSetup_countP_rm, ensure_trace_countP_rm,
          isRemoveListener]
    · have heq := downloadFile_ok_eq cfg o jc fromUrl toFile hb hp hres hdl
      constructor
      · intro r h
        constructor
        · rw [heq]
          simp [List.countP_append, dlSetup_countP_rm, ensure_trace_countP_rm,
            slotRemove_countP, isRemoveListener]
        · refine ⟨dlSetup o (jc + 1) (if hb then CB.userBegin else CB.defaultBeginLog) hp
              ++ ((ensureValidRoot cfg o toFile).trace
                ++ [.downloadNative fromUrl toFile (jc + 1)]), ?_, ?_⟩
          · rw [heq]
            simp [List.append_assoc]
          · simp [List.countP_append, dlSetup_countP_rm, ensure_trace_countP_rm,
              isRemoveListener]
      · intro e h
        rw [heq] at h
        exact absurd h (by simp)

/-- Witness for C2 (amended): a concrete successful download with both
callbacks and only the iOS mechanism available releases exactly one
handle. -/
theorem c2_witness :
    (downloadFile cfgW okOracle 0 ("http://u".data) goodPath true true).2.1.countP
        isRemoveListener =
      ((if okOracle.iosAvailable then 1 else 0) +
        (if okOracle.androidAvailable then 1 else 0)) :=
  (((c2_release_amended cfgW okOracle 0 ("http://u".data) goodPath true true).1
    ("ok".data) (by decide))).1

/-! ### Claim C4 -/

theorem mem_dlAdds {c : Call} {b : Bool} {m : Mech} {ch : Str} {cb : CB}
    (h : c ∈ dlAdds b m ch cb) : c = Call.addListener m ch cb := by
  cases b
  · simp [dlAdds] at h
  · simpa [dlAdds] using h

theorem mem_dlSetup {c : Call} {o : Oracle} {jid : Nat} {cb : CB} {hp : Bool}
    (h : c ∈ dlSetup o jid cb hp) :
    (∃ m2, c = Call.addListener m2 (dlBeginChannel jid) cb) ∨
    (∃ m2, c = Call.addListener m2 (dlProgressChannel jid) CB.userProgress) := by
  unfold dlSetup at h
  rcases List.mem_append.mp h with h | h
  · rcases List.mem_append.mp h with h | h
    · exact Or.inl ⟨_, mem_dlAdds h⟩
    · exact Or.inl ⟨_, mem_dlAdds h⟩
  · rcases List.mem_append.mp (mem_if_list hp _ h) with h | h
    · exact Or.inr ⟨_, mem_dlAdds h⟩
    · exact Or.inr ⟨_, mem_dlAdds h⟩

theorem ensure_trace_no_add (cfg : Config) (o : Oracle) (p : Str) :
    ∀ c ∈ (ensureValidRoot cfg o p).trace, isAddListener c = false := by
  intro c hc
  rcases h : rootDir cfg p with _ | root
  · rw [ensure_invalid o h] at hc
    simp [EnsureResult.trace] at hc
    rcases hc with hc | hc <;> (rw [hc]; rfl)
  · rw [ensure_valid o h] at hc
    simp [EnsureResult.trace] at hc
    rcases hc with hc | hc <;> (rw [hc]; rfl)

theorem mem_slotRemove {c : Call} {b : Bool} {m : Mech} {hp : Bool} {jid : Nat}
    (h : c ∈ slotRemove b m hp jid) : isRemoveListener c = true := by
  cases b
  · simp [slotRemove] at h
  · simp [slotRemove] at h
    rw [h]
    rfl

theorem downloadFile_trace_mem (cfg : Config) (o : Oracle) (jc : Nat)
    (fromUrl toFile : Str) (hb hp : Bool) :
    ∀ c ∈ (downloadFile cfg o jc fromUrl toFile hb hp).2.1,
      c ∈ dlSetup o (jc + 1) (if hb then CB.userBegin else CB.defaultBeginLog) hp ∨
      c ∈ (ensureValidRoot cfg o toFile).trace ∨
      c = Call.downloadNative fromUrl toFile (jc + 1) ∨
      isRemoveListener c = true := by
  intro c hc
  rcases hres : (ensureValidRoot cfg o toFile).result with e0 | u0
  · rw [downloadFile_err_eq cfg o jc fromUrl toFile hb hp hres] at hc
    rcases List.mem_append.mp hc with hc | hc
    · exact Or.inl hc
    · exact Or.inr (Or.inl hc)
  · rcases hdl : o.downloadRes fromUrl toFile (jc + 1) with e1 | r1
    · rw [downloadFile_dlerr_eq cfg o jc fromUrl toFile hb hp hres hdl] at hc
      rcases List.mem_append.mp hc with hc | hc
      · exact Or.inl hc
      · rcases List.mem_append.mp hc with hc | hc
        · exact Or.inr (Or.inl hc)
        · exact Or.inr (Or.inr (Or.inl (by simpa using hc)))
    · rw [downloadFile_ok_eq cfg o jc fromUrl toFile hb hp hres hdl] at hc
      rcases List.mem_append.mp hc with hc | hc
      · exact Or.inl hc
      · rcases List.mem_append.mp hc with hc | hc
        · exact Or.inr (Or.inl hc)
        · rcases List.mem_append.mp hc with hc | hc
          · exact Or.inr (Or.inr (Or.inl (by simpa using hc)))
          · rcases List.mem_append.mp hc with hc | hc
            · exact Or.inr (Or.inr (Or.inr (mem_slotRemove hc)))
            · exact Or.inr (Or.inr (Or.inr (mem_slotRemove hc)))

/-- Claim C4, counterexample: with no begin callback supplied, the installed
default begin callback is nevertheless subscribed — the trace contains an
`addListener` registration carrying the default logging callback, i.e. a
subscription handle is produced. -/
theorem c4_counterexample :
    Call.addListener .ios (dlBeginChannel 1) CB.defaultBeginLog
      ∈ (downloadFile cfgW okOracle 0 ("http://u".data) goodPath false false).2.1 := by
  decide

/-- Claim C4 (amended): when no begin callback is supplied the installed
default callback performs only a diagnostic log when invoked, but — the
`if (begin)` test being always true after defaulting — it *is* subscribed on
every available mechanism exactly like a user callback, producing
subscription handles; no user begin callback is registered in that case. -/
theorem c4_default_begin_amended (cfg : Config) (o : Oracle) (jc : Nat)
    (fromUrl toFile : Str) (hp : Bool) :
    (∀ info, defaultBeginRun info = [Call.log ("Download begun: ".data ++ info)]) ∧
    (o.iosAvailable = true →
      Call.addListener .ios (dlBeginChannel (jc + 1)) CB.defaultBeginLog
        ∈ (downloadFile cfg o jc fromUrl toFile false hp).2.1) ∧
    (o.androidAvailable = true →
      Call.addListener .android (dlBeginChannel (jc + 1)) CB.defaultBeginLog
        ∈ (downloadFile cfg o jc fromUrl toFile false hp).2.1) ∧
    (∀ m ch, Call.addListener m ch CB.userBegin
        ∉ (downloadFile cfg o jc fromUrl toFile false hp).2.1) := by
  refine ⟨fun info => rfl, ?_, ?_, ?_⟩
  · intro hios
    obtain ⟨rest, hr⟩ := downloadFile_setup_head cfg o jc fromUrl toFile false hp
    rw [hr]
    refine List.mem_append.mpr (Or.inl ?_)
    unfold dlSetup
    refine List.mem_append.mpr (Or.inl (List.mem_append.mpr (Or.inl ?_)))
    simp [dlAdds, hios]
  · intro hand
    obtain ⟨rest, hr⟩ := downloadFile_setup_head cfg o jc fromUrl toFile false hp
    rw [hr]
    refine List.mem_append.mpr (Or.inl ?_)
    unfold dlSetup
    refine List.mem_append.mpr (Or.inl (List.mem_append.mpr (Or.inr ?_)))
    simp [dlAdds, hand]
  · intro m ch hmem
    rcases downloadFile_trace_mem cfg o jc fromUrl toFile false hp _ hmem with
      h | h | h | h
    · rcases mem_dlSetup h with ⟨m2, he⟩ | ⟨m2, he⟩
      · simp at he
      · simp at he
    · have := ensure_trace_no_add cfg o toFile _ h
      simp [isAddListener] at this
    · simp at h
    · simp [isRemoveListener] at h

/-- Witness for C4 (amended): the default callback is subscribed on the iOS
mechanism in a concrete call with a progress callback supplied. -/
theorem c4_witness :
    Call.addListener .ios (dlBeginChannel 1) CB.defaultBeginLog
      ∈ (downloadFile cfgW okOracle 0 ("u".data) goodPath false true).2.1 :=
  (c4_default_begin_amended cfgW okOracle 0 ("u".data) goodPath true).2.1 (by decide)

end RNFS
